import Mathlib

/-!
Verification development for the schema-to-model compiler of
`emannotationschemas/models.py`.

The Python source is shallowly embedded below.  Strings are embedded as
`List Char` (the `.data` of a Lean string literal), Python `dict`s as
insertion-ordered association lists with first-occurrence update semantics
(`dictGet` / `dictSet`), Python exceptions as `Except ModelError`, and the
process-global `annotation_models` store as explicit state passing of a
`ModelStore` value.
-/

set_option autoImplicit false

namespace EMAnnotationSchemas

/-! ## Python dictionaries as insertion-ordered association lists -/

/-- Lookup of a key in a Python dict (first matching entry). -/
def dictGet {α : Type} : List (List Char × α) → List Char → Option α
  | [], _ => none
  | (k2, v) :: rest, k => if k2 = k then some v else dictGet rest k

/-- Assignment `d[k] = v` on a Python dict: replaces the value of an existing
key in place (keeping its insertion position), otherwise appends at the end. -/
def dictSet {α : Type} : List (List Char × α) → List Char → α → List (List Char × α)
  | [], k, v => [(k, v)]
  | (k2, v2) :: rest, k, v =>
    if k2 = k then (k2, v) :: rest else (k2, v2) :: dictSet rest k v

/-- Membership test `x in l` for a Python list of strings. -/
def memList : List (List Char) → List Char → Bool
  | [], _ => false
  | y :: rest, x => if y = x then true else memList rest x

/-! ## Decimal notation of integers (Python `str` of a non-negative int
and Python `int` of a string) -/

/-- Single decimal digit character. -/
def digitChar (n : Nat) : Char :=
  match n with
  | 0 => '0' | 1 => '1' | 2 => '2' | 3 => '3' | 4 => '4'
  | 5 => '5' | 6 => '6' | 7 => '7' | 8 => '8' | _ => '9'

/-- Fuel-driven digit emitter (structural recursion on the fuel, so that the
kernel can evaluate it); `fuel` is always chosen large enough that the `0`
branch is never reached. -/
def natDigitsAux : Nat → Nat → List Char → List Char
  | 0, _, acc => acc
  | fuel + 1, n, acc =>
    if n < 10 then digitChar n :: acc
    else natDigitsAux fuel (n / 10) (digitChar (n % 10) :: acc)

/-- Decimal representation of a natural number, as Python `"{}".format(n)`
produces it (no sign, no leading zeros). -/
def natDigits (n : Nat) : List Char :=
  natDigitsAux (n + 1) n []

/-- ASCII decimal digit test. -/
def isDigitChar (c : Char) : Bool :=
  48 ≤ c.toNat && c.toNat ≤ 57

/-- Numeric value of an ASCII digit character. -/
def digitVal (c : Char) : Option Nat :=
  if isDigitChar c then some (c.toNat - 48) else none

/-- Accumulating decimal parser: consumes the whole list, failing on the
first non-digit character. -/
def parseDigitsAux (acc : Nat) : List Char → Option Nat
  | [] => some acc
  | c :: cs =>
    match digitVal c with
    | some d => parseDigitsAux (10 * acc + d) cs
    | none => none

/-- Parser of a non-empty all-digit string. -/
def parseDigits : List Char → Option Nat
  | [] => none
  | c :: cs => parseDigitsAux 0 (c :: cs)

/-- Whitespace characters stripped by Python `int()` (ASCII part). -/
def isPySpace (c : Char) : Bool :=
  c.toNat = 32 || c.toNat = 9 || c.toNat = 10 || c.toNat = 13 || c.toNat = 11 || c.toNat = 12

/-- Strip leading and trailing whitespace. -/
def stripPy (l : List Char) : List Char :=
  ((l.dropWhile isPySpace).reverse.dropWhile isPySpace).reverse

/-- Python `int(s)` restricted to ASCII, underscore-free input (the argument
inside `get_table_version` comes from `split('_')`, so it never contains an
underscore): optional surrounding whitespace, an optional sign, then a
non-empty run of decimal digits.  `none` models the `ValueError` Python
raises otherwise. -/
def pythonInt (l : List Char) : Option Int :=
  match stripPy l with
  | '+' :: rest => (parseDigits rest).map (fun n => (n : Int))
  | '-' :: rest => (parseDigits rest).map (fun n => -(n : Int))
  | rest => (parseDigits rest).map (fun n => (n : Int))

/-! ## Naming module (`format_table_name`, `get_table_version`) -/

/-- Python `str.split(sep)` for a one-character separator: splits at every
occurrence, keeping empty segments, `"".split('_') == [""]`. -/
def splitOnChar (c : Char) : List Char → List (List Char)
  | [] => [[]]
  | x :: xs =>
    if x = c then [] :: splitOnChar c xs
    else
      match splitOnChar c xs with
      | [] => [[x]]
      | y :: ys => (x :: y) :: ys

/-- Python `table_name.split('_')[-1]` (split always returns a non-empty
list, so the default is never used). -/
def lastSegment (l : List Char) : List Char :=
  (splitOnChar '_' l).getLastD []

/-- Source `format_table_name(dataset, table_name, version)`:
`"{}_{}_v{}".format(dataset, table_name, version)`. -/
def format_table_name (dataset table_name : List Char) (version : Nat) : List Char :=
  dataset ++ '_' :: table_name ++ '_' :: 'v' :: natDigits version

/-- Source `get_table_version(table_name)`:
`int(table_name.split('_')[-1][1:])`.  `none` models the `ValueError` of
`int()` on a non-numeric remainder. -/
def get_table_version (table_name : List Char) : Option Int :=
  pythonInt ((lastSegment table_name).drop 1)

/-! ## Data model: column types, columns, marshmallow fields, schemas -/

/-- Column type tags (`sqlalchemy` types plus `geoalchemy2.Geometry`). -/
inductive ColType : Type where
  | Numeric : ColType
  | Integer : ColType
  | Float : ColType
  | String : ColType
  | Boolean : ColType
  | Geometry (geometry_type : List Char) (dimension : Nat) : ColType
deriving DecidableEq, Repr

/-- One `sqlalchemy.Column` as the source constructs it: a type, an optional
`ForeignKey` target, and the `index` / `primary_key` / `autoincrement`
keyword arguments (with their defaults). -/
structure Column : Type where
  colType : ColType
  foreign_key : Option (List Char) := none
  index : Bool := false
  primary_key : Bool := false
  autoincrement : Bool := true
deriving DecidableEq, Repr

/-- Values stored in the class-attribute dict `attrd` built by the compiler:
columns, the `__tablename__` string, and the `__mapper_args__` dict (of which
the source only ever sets `polymorphic_identity` and `concrete`). -/
inductive AttrVal : Type where
  | col (c : Column) : AttrVal
  | str (s : List Char) : AttrVal
  | mapper (polymorphic_identity : List Char) (concrete : Bool) : AttrVal
deriving DecidableEq, Repr

/-- Marshmallow field classes appearing as keys of `field_column_map`. -/
inductive MMFieldType : Type where
  | NumericField : MMFieldType
  | Int : MMFieldType
  | Integer : MMFieldType
  | Float : MMFieldType
  | Str : MMFieldType
  | String : MMFieldType
  | Bool : MMFieldType
  | Boolean : MMFieldType
deriving DecidableEq, Repr

/-- Field metadata: the `metadata` dict entries the source reads, each with
the default `metadata.get` supplies. -/
structure Meta : Type where
  index : Bool := false
  drop_column : Bool := false
  postgis_geometry : Option (List Char) := none
  reference_type : Option (List Char) := none

/-- One marshmallow field descriptor: a scalar field of one of the mapped
classes, a `Nested` field with its `many` flag and the `_declared_fields` of
its sub-schema, or a field of any other (unmapped, non-Nested) class. -/
inductive MMField : Type where
  | scalar (t : MMFieldType) (meta : Meta) : MMField
  | nested (many : Bool) (declared_fields : List (List Char × MMField)) (meta : Meta) : MMField
  | other (typeName : List Char) (meta : Meta) : MMField

/-- Metadata of a field. -/
def MMField.meta : MMField → Meta
  | .scalar _ m => m
  | .nested _ _ m => m
  | .other _ m => m

/-- Schema class: its `_declared_fields` dict and whether it subclasses
`ReferenceAnnotation`. -/
structure SchemaDef : Type where
  declared_fields : List (List Char × MMField)
  is_reference : Bool

/-- Source `field_column_map` applied to one of its keys. -/
def field_column_map : MMFieldType → ColType
  | .NumericField => .Numeric
  | .Int => .Integer
  | .Integer => .Integer
  | .Float => .Float
  | .Str => .String
  | .String => .String
  | .Bool => .Boolean
  | .Boolean => .Boolean

/-- Combined `type(field) in field_column_map` test and
`field_column_map[type(field)]` lookup: `some` exactly on the eight mapped
scalar classes. -/
def field_column_map_find : MMField → Option ColType
  | .scalar t _ => some (field_column_map t)
  | _ => none

/-- Error taxonomy: `InvalidSchemaField` as raised by the source, the
`UnknownAnnotationTypeException` of `validate_types` (carrying the list of
bad type names), and a bare Python `KeyError` (dict lookup failure). -/
inductive ModelError : Type where
  | invalidSchemaField (msg : List Char) : ModelError
  | unknownAnnotationType (bad_types : List (List Char)) : ModelError
  | keyError : ModelError
deriving DecidableEq, Repr

/-- Scalar test used in the claims about all-scalar schemas. -/
def isScalarField : MMField → Bool
  | .scalar _ _ => true
  | _ => false

/-! ## Field flattener (`add_column`) -/

/-- Name of the root model: source `root_model_name = "CellSegment"`, used as
`root_model_name.lower()`. -/
def root_model_name_lower : List Char := "cellsegment".data

/-- Primary-key column shared by all models:
`Column(Numeric, primary_key=True, autoincrement=False)`. -/
def idColumn : Column :=
  { colType := .Numeric, primary_key := true, autoincrement := false }

/-- Loop body of the `Nested` branch of `add_column`: iterates over the
sub-schema's `_declared_fields` in declared order.  A sub-field whose
`postgis_geometry` metadata is truthy (present and non-empty) yields a
`Geometry` column with `dimension=3`; otherwise the sub-field's class is
looked up in `field_column_map` (a missing class raises a bare `KeyError`),
and a sub-field named exactly `root_id` additionally gets a `ForeignKey` to
the root table's `id`. -/
def add_nested_columns (dataset : List Char) (version : Nat) (k : List Char) :
    List (List Char × MMField) → List (List Char × AttrVal) →
    Except ModelError (List (List Char × AttrVal))
  | [], attrd => .ok attrd
  | (sub_k, sub_field) :: rest, attrd =>
    if sub_field.meta.postgis_geometry.getD [] ≠ [] then
      add_nested_columns dataset version k rest
        (dictSet attrd (k ++ '_' :: sub_k)
          (.col { colType := .Geometry (sub_field.meta.postgis_geometry.getD []) 3 }))
    else
      match field_column_map_find sub_field with
      | none => .error .keyError
      | some ct =>
        add_nested_columns dataset version k rest
          (dictSet attrd (k ++ '_' :: sub_k)
            (.col { colType := ct,
                    foreign_key :=
                      if sub_k = "root_id".data then
                        some (format_table_name dataset root_model_name_lower version
                          ++ ".id".data)
                      else none,
                    index := sub_field.meta.index }))

/-- Source `add_column(attrd, k, field, dataset, version)`. -/
def add_column (attrd : List (List Char × AttrVal)) (k : List Char) (field : MMField)
    (dataset : List Char) (version : Nat) :
    Except ModelError (List (List Char × AttrVal)) :=
  match field_column_map_find field with
  | some ct => .ok (dictSet attrd k (.col { colType := ct, index := field.meta.index }))
  | none =>
    match field with
    | .nested many subs _ =>
      if many then .error (.invalidSchemaField "Nested many=True not supported".data)
      else add_nested_columns dataset version k subs attrd
    | .other typeName _ =>
      .error (.invalidSchemaField ("field type ".data ++ typeName ++ " not supported".data))
    | .scalar _ _ => .error (.invalidSchemaField "field type not supported".data)

/-! ## Model compiler (`declare_annotation_model_from_schema`) -/

/-- Compiled model: the generated class name
(`dataset.capitalize() + table_name.capitalize()`) and its attribute dict. -/
structure TableDef : Type where
  model_name : List Char
  attrd : List (List Char × AttrVal)
deriving DecidableEq, Repr

/-- Python `str.capitalize()` (ASCII): first character upper-cased, the rest
lower-cased. -/
def pyCapitalize : List Char → List Char
  | [] => []
  | c :: cs => c.toUpper :: cs.map Char.toLower

/-- Field loop of `declare_annotation_model_from_schema`: for each declared
field, skip it when its `drop_column` metadata is set, otherwise pass the
accumulated dict through `add_column`. -/
def declare_fields_loop (dataset : List Char) (version : Nat) :
    List (List Char × MMField) → List (List Char × AttrVal) →
    Except ModelError (List (List Char × AttrVal))
  | [], attrd => .ok attrd
  | (k, field) :: rest, attrd =>
    if field.meta.drop_column then declare_fields_loop dataset version rest attrd
    else
      match add_column attrd k field dataset version with
      | .ok attrd2 => declare_fields_loop dataset version rest attrd2
      | .error e => .error e

/-- Source `declare_annotation_model_from_schema(dataset, table_name, Schema,
version)`: seeds the attribute dict with `__tablename__`, `__mapper_args__`
(polymorphic identity = dataset, concrete = True) and the `id` primary key,
flattens every non-dropped declared field, and for `ReferenceAnnotation`
subclasses assigns a `target_id` foreign-key column pointing at
`dataset + '_' + reference_type + '.id'` (a missing `target_id` field or
`reference_type` metadata entry is a Python `KeyError`). -/
def initAttrd (dataset table_name : List Char) (version : Nat) :
    List (List Char × AttrVal) :=
  [("__tablename__".data, .str (format_table_name dataset table_name version)),
   ("__mapper_args__".data, .mapper dataset true),
   ("id".data, .col idColumn)]

def declare_annotation_model_from_schema (dataset table_name : List Char)
    (Schema : SchemaDef) (version : Nat) : Except ModelError TableDef :=
  let model_name := pyCapitalize dataset ++ pyCapitalize table_name
  match declare_fields_loop dataset version Schema.declared_fields
      (initAttrd dataset table_name version) with
  | .error e => .error e
  | .ok attrd1 =>
    if Schema.is_reference then
      match dictGet Schema.declared_fields "target_id".data with
      | none => .error .keyError
      | some target_field =>
        match target_field.meta.reference_type with
        | none => .error .keyError
        | some reference_type =>
          .ok ⟨model_name,
            dictSet attrd1 "target_id".data
              (.col { colType := .Integer,
                      foreign_key := some (dataset ++ '_' :: reference_type ++ ".id".data) })⟩
    else .ok ⟨model_name, attrd1⟩

/-! ## Model cache (`ModelStore`) -/

/-- Source `ModelStore`: its `container` dict, keyed by the canonical table
name.  It stores the compiled models (generated classes), embedded here as
`TableDef` values. -/
structure ModelStore : Type where
  container : List (List Char × TableDef)
deriving DecidableEq, Repr

/-- Source `ModelStore.to_key`. -/
def ModelStore.to_key (dataset table_name : List Char) (version : Nat) : List Char :=
  format_table_name dataset table_name version

/-- Source `ModelStore.contains_model`. -/
def ModelStore.contains_model (s : ModelStore) (dataset table_name : List Char)
    (version : Nat) : Bool :=
  (dictGet s.container (ModelStore.to_key dataset table_name version)).isSome

/-- Source `ModelStore.get_model` (`none` models the `KeyError` of a lookup
of an absent key). -/
def ModelStore.get_model (s : ModelStore) (dataset table_name : List Char)
    (version : Nat) : Option TableDef :=
  dictGet s.container (ModelStore.to_key dataset table_name version)

/-- Source `ModelStore.set_model`. -/
def ModelStore.set_model (s : ModelStore) (dataset table_name : List Char)
    (model : TableDef) (version : Nat) : ModelStore :=
  ⟨dictSet s.container (ModelStore.to_key dataset table_name version) model⟩

/-- Source `make_annotation_model_from_schema(dataset, table_name, Schema,
version)`: compile only when the key is absent, store, then return the stored
model.  The final `Nat` instruments the call with the number of
`declare_annotation_model_from_schema` invocations it performed (the
compilation-count probe of the spec); it is ignored by the callers. -/
def make_annotation_model_from_schema (store : ModelStore) (dataset table_name : List Char)
    (Schema : SchemaDef) (version : Nat) :
    Except ModelError (TableDef × ModelStore × Nat) :=
  if store.contains_model dataset table_name version then
    match store.get_model dataset table_name version with
    | some m => .ok (m, store, 0)
    | none => .error .keyError
  else
    match declare_annotation_model_from_schema dataset table_name Schema version with
    | .error e => .error e
    | .ok M =>
      let store2 := store.set_model dataset table_name M version
      match store2.get_model dataset table_name version with
      | some m => .ok (m, store2, 1)
      | none => .error .keyError

/-- Source `make_cell_segment_model(dataset, version)`: the root model, with
only `__tablename__` and the `id` primary key, cached under the
`(dataset, "cellsegment", version)` key. -/
def make_cell_segment_model (store : ModelStore) (dataset : List Char) (version : Nat) :
    Except ModelError (TableDef × ModelStore) :=
  let root_type := root_model_name_lower
  let attr_dict : List (List Char × AttrVal) :=
    [("__tablename__".data, .str (format_table_name dataset root_type version)),
     ("id".data, .col idColumn)]
  let model_name := pyCapitalize dataset ++ "CellSegment".data
  let store2 :=
    if store.contains_model dataset root_type version then store
    else store.set_model dataset root_type ⟨model_name, attr_dict⟩ version
  match store2.get_model dataset root_type version with
  | some m => .ok (m, store2)
  | none => .error .keyError

/-! ## Dataset assembler (`validate_types`, `make_dataset_models`) -/

/-- Source `validate_types(schemas_and_tables)`.  The registry's valid-name
set (`get_types()`, supplied by the `emannotationschemas` package, which is
not part of this file's source) is passed in as `all_types`. -/
def validate_types (all_types : List (List Char))
    (schemas_and_tables : List (List Char × List Char)) : Except ModelError Unit :=
  if schemas_and_tables.all (fun p => memList all_types p.1) then .ok ()
  else
    .error (.unknownAnnotationType
      ((schemas_and_tables.filter (fun p => !(memList all_types p.1))).map Prod.fst))

/-- Modelled from the spec: the schema registry lookup
(`emannotationschemas.get_schema`, whose module is not under `src/`);
`lookup(name) -> Schema | NotFound`, embedded as a lookup in an explicit
registry association list. -/
def get_schema (registry : List (List Char × SchemaDef)) (annotation_type : List Char) :
    Except ModelError SchemaDef :=
  match dictGet registry annotation_type with
  | some s => .ok s
  | none => .error (.unknownAnnotationType [annotation_type])

/-- Source `make_annotation_model(dataset, annotation_type, table_name,
version)`: registry lookup followed by the cached compilation. -/
def make_annotation_model (registry : List (List Char × SchemaDef)) (store : ModelStore)
    (dataset annotation_type table_name : List Char) (version : Nat) :
    Except ModelError (TableDef × ModelStore × Nat) :=
  match get_schema registry annotation_type with
  | .error e => .error e
  | .ok Schema => make_annotation_model_from_schema store dataset table_name Schema version

/-- Table loop of `make_dataset_models`: one `make_annotation_model` per
`(schema_name, table_name)` pair, accumulating `dataset_dict` and threading
the store (on an exception the store mutations already performed persist). -/
def make_dataset_models_loop (registry : List (List Char × SchemaDef))
    (dataset : List Char) (version : Nat) :
    List (List Char × List Char) → List (List Char × TableDef) → ModelStore →
    Except ModelError (List (List Char × TableDef)) × ModelStore
  | [], acc, store => (.ok acc, store)
  | (schema_name, table_name) :: rest, acc, store =>
    match make_annotation_model registry store dataset schema_name table_name version with
    | .error e => (.error e, store)
    | .ok (model, store2, _) =>
      make_dataset_models_loop registry dataset version rest
        (dictSet acc table_name model) store2

/-- Source `make_dataset_models(dataset, schemas_and_tables, version,
include_contacts)`.  The registry and the built-in `Contact` schema
(`emannotationschemas.contact`, not under `src/`) are passed in explicitly;
`get_types()` is modelled as the registry's key list.  The pair returned
carries the Python return value (or the exception) together with the final
state of the global `annotation_models` store. -/
def make_dataset_models (registry : List (List Char × SchemaDef)) (Contact : SchemaDef)
    (store : ModelStore) (dataset : List Char)
    (schemas_and_tables : List (List Char × List Char)) (version : Nat)
    (include_contacts : Bool) :
    Except ModelError (List (List Char × TableDef)) × ModelStore :=
  match validate_types (registry.map Prod.fst) schemas_and_tables with
  | .error e => (.error e, store)
  | .ok _ =>
    match make_cell_segment_model store dataset version with
    | .error e => (.error e, store)
    | .ok (cell_segment_model, store1) =>
      let dataset_dict := dictSet [] root_model_name_lower cell_segment_model
      match make_dataset_models_loop registry dataset version schemas_and_tables
          dataset_dict store1 with
      | (.error e, store2) => (.error e, store2)
      | (.ok dataset_dict2, store2) =>
        if include_contacts then
          match make_annotation_model_from_schema store2 dataset "contact".data
              Contact version with
          | .error e => (.error e, store2)
          | .ok (contact_model, store3, _) =>
            (.ok (dictSet dataset_dict2 "contact".data contact_model), store3)
        else (.ok dataset_dict2, store2)

/-- Test whether an attribute value is a column. -/
def isColVal : AttrVal → Bool
  | .col _ => true
  | _ => false

/-- Test whether an optional attribute value is a column. -/
def isColOpt : Option AttrVal → Bool
  | some v => isColVal v
  | none => false

/-- Number of column-valued entries of an attribute dict. -/
def countCols (attrd : List (List Char × AttrVal)) : Nat :=
  (attrd.filter (fun p => isColVal p.2)).length

/-- Number of declared fields not marked `drop_column`. -/
def nonDroppedCount (S : SchemaDef) : Nat :=
  (S.declared_fields.filter (fun p => !p.2.meta.drop_column)).length

/-- Failure test used to state when `int()` rejects the version remainder: a
character that is neither a digit, a sign, nor whitespace. -/
def hasBadChar (l : List Char) : Bool :=
  l.any (fun c => !isDigitChar c && !(c = '+') && !(c = '-') && !isPySpace c)

/-! ## Lemmas on decimal notation -/

theorem natDigitsAux_acc (fuel : Nat) : ∀ (n : Nat) (acc : List Char),
    natDigitsAux fuel n acc = natDigitsAux fuel n [] ++ acc := by
  induction fuel with
  | zero => intro n acc; rfl
  | succ fuel ih =>
    intro n acc
    by_cases h : n < 10
    · simp [natDigitsAux, h]
    · simp only [natDigitsAux, if_neg h]
      rw [ih (n / 10) (digitChar (n % 10) :: acc), ih (n / 10) [digitChar (n % 10)]]
      simp

theorem natDigitsAux_fuel : ∀ (f1 : Nat) (n : Nat) (f2 : Nat), 0 < f1 → 0 < f2 →
    n < 10 ^ f1 → n < 10 ^ f2 → natDigitsAux f1 n [] = natDigitsAux f2 n [] := by
  intro f1
  induction f1 with
  | zero => intro n f2 h1; omega
  | succ f1 ih =>
    intro n f2 _ h2 hn1 hn2
    match f2, h2 with
    | f2 + 1, _ =>
      by_cases h : n < 10
      · simp [natDigitsAux, h]
      · have hf1 : 0 < f1 := by
          by_contra hc
          have : f1 = 0 := by omega
          subst this
          simp at hn1
          omega
        have hf2 : 0 < f2 := by
          by_contra hc
          have : f2 = 0 := by omega
          subst this
          simp at hn2
          omega
        have hd1 : n / 10 < 10 ^ f1 := by
          rw [Nat.div_lt_iff_lt_mul (by omega : 0 < 10)]
          calc n < 10 ^ (f1 + 1) := hn1
            _ = 10 ^ f1 * 10 := by rw [pow_succ]
        have hd2 : n / 10 < 10 ^ f2 := by
          rw [Nat.div_lt_iff_lt_mul (by omega : 0 < 10)]
          calc n < 10 ^ (f2 + 1) := hn2
            _ = 10 ^ f2 * 10 := by rw [pow_succ]
        simp only [natDigitsAux, if_neg h]
        rw [natDigitsAux_acc f1, natDigitsAux_acc f2, ih (n / 10) f2 hf1 hf2 hd1 hd2]

theorem lt_ten_pow_succ (n : Nat) : n < 10 ^ (n + 1) := by
  have h := Nat.lt_pow_self (by omega : 1 < 10) n
  calc n < 10 ^ n := h
    _ ≤ 10 ^ (n + 1) := Nat.pow_le_pow_right (by omega) (by omega)

theorem natDigits_of_lt {n : Nat} (h : n < 10) : natDigits n = [digitChar n] := by
  simp [natDigits, natDigitsAux, h]

theorem natDigits_of_ge {n : Nat} (h : 10 ≤ n) :
    natDigits n = natDigits (n / 10) ++ [digitChar (n % 10)] := by
  have h1 : natDigits n = natDigitsAux n (n / 10) [] ++ [digitChar (n % 10)] := by
    simp only [natDigits, natDigitsAux, if_neg (by omega : ¬ n < 10)]
    exact natDigitsAux_acc n (n / 10) [digitChar (n % 10)]
  rw [h1, natDigits]
  have hd1 : n / 10 < 10 ^ n := by
    have := Nat.lt_pow_self (by omega : 1 < 10) n
    have : n / 10 ≤ n := Nat.div_le_self n 10
    omega
  have hd2 : n / 10 < 10 ^ (n / 10 + 1) := lt_ten_pow_succ (n / 10)
  rw [natDigitsAux_fuel n (n / 10) (n / 10 + 1) (by omega) (by omega) hd1 hd2]

theorem isDigitChar_digitChar (n : Nat) : isDigitChar (digitChar n) = true := by
  unfold digitChar
  split <;> decide

theorem digitVal_digitChar {n : Nat} (h : n < 10) : digitVal (digitChar n) = some n := by
  interval_cases n <;> decide

theorem natDigits_all_digit : ∀ (n : Nat), ∀ c ∈ natDigits n, isDigitChar c = true := by
  intro n
  induction n using Nat.strong_induction_on with
  | _ n ih =>
    intro c hc
    by_cases h : n < 10
    · rw [natDigits_of_lt h] at hc
      simp at hc
      subst hc
      exact isDigitChar_digitChar n
    · rw [natDigits_of_ge (by omega)] at hc
      rcases List.mem_append.mp hc with h1 | h1
      · exact ih (n / 10) (Nat.div_lt_self (by omega) (by omega)) c h1
      · simp at h1
        subst h1
        exact isDigitChar_digitChar (n % 10)

theorem natDigits_ne_nil (n : Nat) : natDigits n ≠ [] := by
  by_cases h : n < 10
  · rw [natDigits_of_lt h]; simp
  · rw [natDigits_of_ge (by omega)]; simp

theorem parseDigitsAux_append {l1 : List Char} : ∀ {acc m : Nat} (l2 : List Char),
    parseDigitsAux acc l1 = some m → parseDigitsAux acc (l1 ++ l2) = parseDigitsAux m l2 := by
  induction l1 with
  | nil =>
    intro acc m l2 h
    simp only [parseDigitsAux] at h
    cases h
    rfl
  | cons c cs ih =>
    intro acc m l2 h
    simp only [parseDigitsAux, List.cons_append] at h ⊢
    cases hv : digitVal c with
    | none => rw [hv] at h; simp at h
    | some d => rw [hv] at h; exact ih l2 h

theorem parseDigitsAux_natDigits : ∀ (n acc : Nat),
    parseDigitsAux acc (natDigits n) = some (acc * 10 ^ (natDigits n).length + n) := by
  intro n
  induction n using Nat.strong_induction_on with
  | _ n ih =>
    intro acc
    by_cases h : n < 10
    · rw [natDigits_of_lt h]
      simp only [parseDigitsAux, digitVal_digitChar h, List.length_singleton]
      congr 1
      ring
    · rw [natDigits_of_ge (by omega : 10 ≤ n)]
      have hdiv : n / 10 < n := Nat.div_lt_self (by omega) (by omega)
      have h1 := ih (n / 10) hdiv acc
      rw [parseDigitsAux_append [digitChar (n % 10)] h1]
      have hm : n % 10 < 10 := Nat.mod_lt n (by omega)
      simp only [parseDigitsAux, digitVal_digitChar hm, List.length_append,
        List.length_singleton]
      congr 1
      have : 10 * (n / 10) + n % 10 = n := Nat.div_add_mod n 10
      rw [pow_succ]
      ring_nf
      omega

theorem parseDigits_natDigits (n : Nat) : parseDigits (natDigits n) = some n := by
  rcases hc : natDigits n with _ | ⟨c, cs⟩
  · exact absurd hc (natDigits_ne_nil n)
  · have := parseDigitsAux_natDigits n 0
    rw [hc] at this
    simp only [Nat.zero_mul, Nat.zero_add] at this
    exact this

/-! ## Lemmas on `pythonInt` -/

theorem isPySpace_of_digit {c : Char} (h : isDigitChar c = true) : isPySpace c = false := by
  simp only [isDigitChar, Bool.and_eq_true, decide_eq_true_eq] at h
  simp only [isPySpace, Bool.or_eq_false_iff, decide_eq_false_iff_not]
  omega

theorem ne_of_digit_of_not_digit {c d : Char} (h : isDigitChar c = true)
    (hd : isDigitChar d = false) : c ≠ d := by
  intro he
  rw [he, hd] at h
  exact Bool.false_ne_true h

theorem dropWhile_eq_self_of_not_head {l : List Char}
    (h : ∀ c ∈ l, isPySpace c = false) : l.dropWhile isPySpace = l := by
  cases l with
  | nil => rfl
  | cons c cs =>
    have hc : isPySpace c = false := h c (List.mem_cons_self c cs)
    simp [List.dropWhile_cons, hc]

theorem stripPy_of_all_digits {l : List Char}
    (h : ∀ c ∈ l, isDigitChar c = true) : stripPy l = l := by
  have h1 : ∀ c ∈ l, isPySpace c = false := fun c hc => isPySpace_of_digit (h c hc)
  have h2 : l.dropWhile isPySpace = l := dropWhile_eq_self_of_not_head h1
  have h3 : ∀ c ∈ l.reverse, isPySpace c = false := by
    intro c hc
    exact h1 c (List.mem_reverse.mp hc)
  simp only [stripPy, h2, dropWhile_eq_self_of_not_head h3, List.reverse_reverse]

theorem pythonInt_natDigits (v : Nat) : pythonInt (natDigits v) = some (v : Int) := by
  have hall := natDigits_all_digit v
  unfold pythonInt
  rw [stripPy_of_all_digits hall]
  rcases hc : natDigits v with _ | ⟨c, cs⟩
  · exact absurd hc (natDigits_ne_nil v)
  · have hcd : isDigitChar c = true := by
      apply hall
      rw [hc]
      exact List.mem_cons_self c cs
    have hparse : parseDigits (c :: cs) = some v := by
      rw [← hc]
      exact parseDigits_natDigits v
    split
    · next rest heq =>
      exfalso
      have : c = '+' := (List.cons_eq_cons.mp heq).1
      exact ne_of_digit_of_not_digit hcd (by decide) this
    · next rest heq =>
      exfalso
      have : c = '-' := (List.cons_eq_cons.mp heq).1
      exact ne_of_digit_of_not_digit hcd (by decide) this
    · next heq1 heq2 =>
      rw [hparse]
      rfl

theorem parseDigitsAux_none_of_mem {c : Char} (hd : isDigitChar c = false) :
    ∀ (l : List Char) (acc : Nat), c ∈ l → parseDigitsAux acc l = none := by
  intro l
  induction l with
  | nil => intro acc h; simp at h
  | cons x xs ih =>
    intro acc h
    simp only [parseDigitsAux]
    cases hv : digitVal x with
    | none => rfl
    | some d =>
      have hx : isDigitChar x = true := by
        by_contra hb
        simp only [Bool.not_eq_true] at hb
        rw [digitVal, hb] at hv
        simp at hv
      have hcx : c ≠ x := fun he => by rw [he, hx] at hd; exact Bool.noConfusion hd
      have hmem : c ∈ xs := by
        rcases List.mem_cons.mp h with h1 | h1
        · exact absurd h1 hcx
        · exact h1
      exact ih (10 * acc + d) hmem

theorem mem_dropWhile_of_not_space {c : Char} (hns : isPySpace c = false) :
    ∀ (l : List Char), c ∈ l → c ∈ l.dropWhile isPySpace := by
  intro l
  induction l with
  | nil => intro h; simp at h
  | cons x xs ih =>
    intro h
    by_cases hx : isPySpace x = true
    · have hcx : c ≠ x := fun he => by rw [he, hx] at hns; exact Bool.noConfusion hns
      have hmem : c ∈ xs := by
        rcases List.mem_cons.mp h with h1 | h1
        · exact absurd h1 hcx
        · exact h1
      rw [List.dropWhile_cons, if_pos hx]
      exact ih hmem
    · rw [List.dropWhile_cons, if_neg hx]
      exact h

theorem mem_stripPy {c : Char} {l : List Char} (hc : c ∈ l) (hns : isPySpace c = false) :
    c ∈ stripPy l := by
  unfold stripPy
  rw [List.mem_reverse]
  apply mem_dropWhile_of_not_space hns
  rw [List.mem_reverse]
  exact mem_dropWhile_of_not_space hns l hc

theorem pythonInt_none_of_badchar {c : Char} {l : List Char} (hc : c ∈ l)
    (h1 : isDigitChar c = false) (h2 : c ≠ '+') (h3 : c ≠ '-')
    (h4 : isPySpace c = false) : pythonInt l = none := by
  have hmem : c ∈ stripPy l := mem_stripPy hc h4
  unfold pythonInt
  generalize hs : stripPy l = s at hmem ⊢
  rcases s with _ | ⟨r, rs⟩
  · simp at hmem
  · split
    · next rest heq =>
      obtain ⟨hr, hrs⟩ := List.cons_eq_cons.mp heq
      have hcr : c ∈ rest := by
        rw [← hrs]
        rcases List.mem_cons.mp hmem with hx | hx
        · rw [hr] at hx; exact absurd hx h2
        · exact hx
      rcases rest with _ | ⟨a, as⟩
      · simp at hcr
      · have hpn : parseDigits (a :: as) = none :=
          parseDigitsAux_none_of_mem h1 (a :: as) 0 hcr
        rw [hpn]
        rfl
    · next rest heq =>
      obtain ⟨hr, hrs⟩ := List.cons_eq_cons.mp heq
      have hcr : c ∈ rest := by
        rw [← hrs]
        rcases List.mem_cons.mp hmem with hx | hx
        · rw [hr] at hx; exact absurd hx h3
        · exact hx
      rcases rest with _ | ⟨a, as⟩
      · simp at hcr
      · have hpn : parseDigits (a :: as) = none :=
          parseDigitsAux_none_of_mem h1 (a :: as) 0 hcr
        rw [hpn]
        rfl
    · next heq1 heq2 =>
      have hpn : parseDigits (r :: rs) = none :=
        parseDigitsAux_none_of_mem h1 (r :: rs) 0 hmem
      rw [hpn]
      rfl

/-! ## Lemmas on `splitOnChar` and `lastSegment` -/

theorem splitOnChar_ne_nil (c : Char) : ∀ (l : List Char), splitOnChar c l ≠ [] := by
  intro l
  cases l with
  | nil => simp [splitOnChar]
  | cons x xs =>
    simp only [splitOnChar]
    by_cases h : x = c
    · simp [h]
    · rw [if_neg h]
      cases splitOnChar c xs <;> simp

theorem splitOnChar_of_not_mem {c : Char} : ∀ {l : List Char},
    (∀ x ∈ l, x ≠ c) → splitOnChar c l = [l] := by
  intro l
  induction l with
  | nil => intro _; rfl
  | cons x xs ih =>
    intro h
    have hx : x ≠ c := h x (List.mem_cons_self x xs)
    have hxs : splitOnChar c xs = [xs] := ih (fun y hy => h y (List.mem_cons_of_mem x hy))
    simp only [splitOnChar, if_neg hx, hxs]

theorem splitOnChar_length_ge_two {c : Char} : ∀ {l : List Char},
    c ∈ l → 2 ≤ (splitOnChar c l).length := by
  intro l
  induction l with
  | nil => intro h; simp at h
  | cons x xs ih =>
    intro h
    simp only [splitOnChar]
    by_cases hx : x = c
    · rw [if_pos hx]
      have h1 : splitOnChar c xs ≠ [] := splitOnChar_ne_nil c xs
      have h2 : 1 ≤ (splitOnChar c xs).length := by
        cases hs : splitOnChar c xs with
        | nil => exact absurd hs h1
        | cons y ys => simp
      simp only [List.length_cons]
      omega
    · rw [if_neg hx]
      have hmem : c ∈ xs := by
        rcases List.mem_cons.mp h with h1 | h1
        · exact absurd h1.symm hx
        · exact h1
      have h2 := ih hmem
      cases hs : splitOnChar c xs with
      | nil => exact absurd hs (splitOnChar_ne_nil c xs)
      | cons y ys =>
        rw [hs] at h2
        simp only [List.length_cons] at h2 ⊢
        omega

theorem getLastD_eq_of_ne_nil {α : Type} {l : List α} (h : l ≠ []) (d1 d2 : α) :
    l.getLastD d1 = l.getLastD d2 := by
  cases l with
  | nil => exact absurd rfl h
  | cons x xs => simp only [List.getLastD_cons]

theorem getLastD_splitOnChar_append {c : Char} {l2 : List Char}
    (h2 : ∀ x ∈ l2, x ≠ c) :
    ∀ (l1 : List Char), (splitOnChar c (l1 ++ c :: l2)).getLastD [] = l2 := by
  intro l1
  induction l1 with
  | nil =>
    show (splitOnChar c (c :: l2)).getLastD [] = l2
    have h1 : splitOnChar c (c :: l2) = [] :: splitOnChar c l2 := by
      simp [splitOnChar]
    rw [h1, List.getLastD_cons, splitOnChar_of_not_mem h2]
    rfl
  | cons x xs ih =>
    simp only [List.cons_append, splitOnChar]
    by_cases hx : x = c
    · rw [if_pos hx, List.getLastD_cons]
      exact ih
    · rw [if_neg hx]
      have hcm : c ∈ xs ++ c :: l2 := by
        rw [List.mem_append]
        right
        exact List.mem_cons_self c l2
      have hlen := splitOnChar_length_ge_two hcm
      cases hs : splitOnChar c (xs ++ c :: l2) with
      | nil => exact absurd hs (splitOnChar_ne_nil c (xs ++ c :: l2))
      | cons y ys =>
        rw [hs] at hlen
        have hys : ys ≠ [] := by
          intro hn
          rw [hn] at hlen
          simp at hlen
        rw [List.getLastD_cons]
        have h1 : (splitOnChar c (xs ++ c :: l2)).getLastD [] = l2 := ih
        rw [hs, List.getLastD_cons] at h1
        rw [← h1]
        exact getLastD_eq_of_ne_nil hys (x :: y) y

theorem lastSegment_format (dataset table_name : List Char) (version : Nat) :
    lastSegment (format_table_name dataset table_name version) = 'v' :: natDigits version := by
  have hshape : format_table_name dataset table_name version
      = (dataset ++ '_' :: table_name) ++ '_' :: ('v' :: natDigits version) := by
    simp [format_table_name, List.append_assoc]
  have hnm : ∀ x ∈ 'v' :: natDigits version, x ≠ '_' := by
    intro x hx
    rcases List.mem_cons.mp hx with h1 | h1
    · rw [h1]; decide
    · exact ne_of_digit_of_not_digit (natDigits_all_digit version x h1) (by decide)
  rw [lastSegment, hshape]
  exact getLastD_splitOnChar_append hnm (dataset ++ '_' :: table_name)

/-- Round trip of the naming module, shared by the claims about `C2` and the
decoder: decoding the canonical name returns the version, for all dataset and
table strings. -/
theorem get_table_version_format (dataset table_name : List Char) (version : Nat) :
    get_table_version (format_table_name dataset table_name version) = some (version : Int) := by
  rw [get_table_version, lastSegment_format]
  simp only [List.drop_succ_cons, List.drop_zero]
  exact pythonInt_natDigits version

/-! ## Lemmas on the dict operations -/

theorem dictGet_dictSet_self {α : Type} (d : List (List Char × α)) (k : List Char) (v : α) :
    dictGet (dictSet d k v) k = some v := by
  induction d with
  | nil => simp [dictSet, dictGet]
  | cons p rest ih =>
    obtain ⟨k2, v2⟩ := p
    by_cases h : k2 = k
    · simp [dictSet, dictGet, h]
    · simp only [dictSet, if_neg h, dictGet]
      exact ih

theorem dictGet_dictSet_ne {α : Type} (d : List (List Char × α)) {k k2 : List Char} (v : α)
    (h : k2 ≠ k) : dictGet (dictSet d k v) k2 = dictGet d k2 := by
  induction d with
  | nil =>
    simp only [dictSet, dictGet]
    rw [if_neg (fun he => h he.symm)]
  | cons p rest ih =>
    obtain ⟨k3, v3⟩ := p
    by_cases h3 : k3 = k
    · have h32 : k3 ≠ k2 := by rw [h3]; exact fun he => h he.symm
      simp only [dictSet, if_pos h3, dictGet, if_neg h32]
    · simp only [dictSet, if_neg h3, dictGet]
      by_cases h32 : k3 = k2
      · rw [if_pos h32, if_pos h32]
      · rw [if_neg h32, if_neg h32]
        exact ih

theorem mem_dictSet {α : Type} {d : List (List Char × α)} {k : List Char} {v : α}
    {p : List Char × α} (h : p ∈ dictSet d k v) : p ∈ d ∨ p = (k, v) := by
  induction d with
  | nil =>
    right
    exact List.mem_singleton.mp h
  | cons q rest ih =>
    obtain ⟨k2, v2⟩ := q
    by_cases h2 : k2 = k
    · rw [dictSet, if_pos h2] at h
      rcases List.mem_cons.mp h with h1 | h1
      · right; rw [h1, h2]
      · left; exact List.mem_cons_of_mem _ h1
    · rw [dictSet, if_neg h2] at h
      rcases List.mem_cons.mp h with h1 | h1
      · left; rw [h1]; exact List.mem_cons_self _ _
      · rcases ih h1 with h3 | h3
        · left; exact List.mem_cons_of_mem _ h3
        · right; exact h3

theorem dictGet_isSome_iff {α : Type} (d : List (List Char × α)) (k : List Char) :
    (dictGet d k).isSome = true ↔ k ∈ d.map Prod.fst := by
  induction d with
  | nil => simp [dictGet]
  | cons p rest ih =>
    obtain ⟨k2, v2⟩ := p
    by_cases h : k2 = k
    · rw [dictGet, if_pos h]
      simp only [Option.isSome_some, List.map_cons, List.mem_cons]
      constructor
      · intro _; left; exact h.symm
      · intro _; trivial
    · simp only [dictGet, if_neg h, List.map_cons, List.mem_cons]
      rw [ih]
      constructor
      · intro hx; right; exact hx
      · intro hx
        rcases hx with hx | hx
        · exact absurd hx.symm h
        · exact hx

theorem keys_dictSet {α : Type} (d : List (List Char × α)) (k : List Char) (v : α) :
    (dictSet d k v).map Prod.fst
      = if (dictGet d k).isSome then d.map Prod.fst else d.map Prod.fst ++ [k] := by
  induction d with
  | nil => simp [dictSet, dictGet]
  | cons p rest ih =>
    obtain ⟨k2, v2⟩ := p
    by_cases h : k2 = k
    · simp [dictSet, dictGet, h]
    · simp only [dictSet, if_neg h, dictGet, List.map_cons, ih]
      by_cases hs : (dictGet rest k).isSome
      · rw [if_pos hs, if_pos hs]
      · rw [if_neg hs, if_neg hs]
        simp

theorem nodupKeys_dictSet {α : Type} {d : List (List Char × α)} (k : List Char) (v : α)
    (h : (d.map Prod.fst).Nodup) : ((dictSet d k v).map Prod.fst).Nodup := by
  rw [keys_dictSet]
  by_cases hs : (dictGet d k).isSome
  · rw [if_pos hs]; exact h
  · rw [if_neg hs]
    have hk : k ∉ d.map Prod.fst := by
      intro hmem
      exact hs ((dictGet_isSome_iff d k).mpr hmem)
    simp only [List.nodup_append, List.nodup_cons, List.not_mem_nil, not_false_iff,
      List.nodup_nil, and_true, true_and]
    constructor
    · exact h
    · intro x hx
      simp only [List.mem_singleton]
      intro he
      rw [he] at hx
      exact hk hx

theorem countCols_cons (p : List Char × AttrVal) (d : List (List Char × AttrVal)) :
    countCols (p :: d) = (if isColVal p.2 then 1 else 0) + countCols d := by
  simp only [countCols, List.filter_cons]
  by_cases h : isColVal p.2
  · rw [if_pos h, if_pos h, List.length_cons]
    omega
  · rw [if_neg h, if_neg (by simp [h])]
    omega

theorem countCols_dictSet (d : List (List Char × AttrVal)) (k : List Char) (c : Column) :
    countCols (dictSet d k (.col c))
      = countCols d + (if isColOpt (dictGet d k) then 0 else 1) := by
  induction d with
  | nil => simp [dictSet, dictGet, countCols, isColOpt, isColVal]
  | cons p rest ih =>
    obtain ⟨k2, v2⟩ := p
    by_cases h : k2 = k
    · rw [dictSet, if_pos h, countCols_cons, countCols_cons]
      rw [dictGet, if_pos h]
      simp only [isColOpt]
      by_cases hv : isColVal v2
      · rw [if_pos hv, if_pos hv]
        simp [isColVal]
      · rw [if_neg hv, if_neg hv]
        simp [isColVal]
        omega
    · rw [dictSet, if_neg h, countCols_cons, countCols_cons, ih]
      rw [dictGet, if_neg h]
      omega

theorem filter_key_length_one {α : Type} {d : List (List Char × α)} {k : List Char} {v : α}
    (hn : (d.map Prod.fst).Nodup) (hg : dictGet d k = some v) :
    (d.filter (fun p => decide (p.1 = k))).length = 1 := by
  induction d with
  | nil => simp [dictGet] at hg
  | cons p rest ih =>
    obtain ⟨k2, v2⟩ := p
    simp only [List.map_cons, List.nodup_cons] at hn
    by_cases h : k2 = k
    · have hnotin : ∀ q ∈ rest, ¬ (decide (q.1 = k) = true) := by
        intro q hq hd
        have : q.1 = k := of_decide_eq_true hd
        apply hn.1
        rw [← h] at this
        rw [← this]
        exact List.mem_map_of_mem Prod.fst hq
      rw [List.filter_cons]
      rw [if_pos (by simp [h])]
      rw [List.length_cons, List.filter_eq_nil_iff.mpr hnotin]
      rfl
    · rw [dictGet, if_neg h] at hg
      rw [List.filter_cons, if_neg (by simp [h]), ih hn.2 hg]

/-! ## Lemmas on the field flattener -/

theorem key_inj {k a b : List Char} (h : k ++ '_' :: a = k ++ '_' :: b) : a = b := by
  have h1 := List.append_cancel_left h
  exact (List.cons_eq_cons.mp h1).2

theorem anc_preserve (dataset : List Char) (version : Nat) (k : List Char) :
    ∀ (subs : List (List Char × MMField)) (attrd res : List (List Char × AttrVal))
      (key : List Char),
    add_nested_columns dataset version k subs attrd = .ok res →
    (∀ s ∈ subs.map Prod.fst, k ++ '_' :: s ≠ key) →
    dictGet res key = dictGet attrd key := by
  intro subs
  induction subs with
  | nil =>
    intro attrd res key hok _
    cases hok
    rfl
  | cons p rest ih =>
    obtain ⟨sub_k, sub_field⟩ := p
    intro attrd res key hok hkeys
    have hk1 : key ≠ k ++ '_' :: sub_k :=
      Ne.symm (hkeys sub_k (List.mem_map_of_mem Prod.fst (List.mem_cons_self _ _)))
    have hkrest : ∀ s ∈ rest.map Prod.fst, k ++ '_' :: s ≠ key := by
      intro s hs
      exact hkeys s (by rw [List.map_cons]; exact List.mem_cons_of_mem _ hs)
    rw [add_nested_columns] at hok
    by_cases hg : sub_field.meta.postgis_geometry.getD [] ≠ []
    · rw [if_pos hg] at hok
      rw [ih _ _ _ hok hkrest, dictGet_dictSet_ne _ _ hk1]
    · rw [if_neg hg] at hok
      cases hf : field_column_map_find sub_field with
      | none =>
        rw [hf] at hok
        exact Except.noConfusion hok
      | some ct =>
        rw [hf] at hok
        rw [ih _ _ _ hok hkrest, dictGet_dictSet_ne _ _ hk1]

theorem anc_nodup (dataset : List Char) (version : Nat) (k : List Char) :
    ∀ (subs : List (List Char × MMField)) (attrd res : List (List Char × AttrVal)),
    add_nested_columns dataset version k subs attrd = .ok res →
    (attrd.map Prod.fst).Nodup → (res.map Prod.fst).Nodup := by
  intro subs
  induction subs with
  | nil =>
    intro attrd res hok hn
    cases hok
    exact hn
  | cons p rest ih =>
    obtain ⟨sub_k, sub_field⟩ := p
    intro attrd res hok hn
    rw [add_nested_columns] at hok
    by_cases hg : sub_field.meta.postgis_geometry.getD [] ≠ []
    · rw [if_pos hg] at hok
      exact ih _ _ hok (nodupKeys_dictSet _ _ hn)
    · rw [if_neg hg] at hok
      cases hf : field_column_map_find sub_field with
      | none =>
        rw [hf] at hok
        exact Except.noConfusion hok
      | some ct =>
        rw [hf] at hok
        exact ih _ _ hok (nodupKeys_dictSet _ _ hn)

theorem anc_lookup_geom (dataset : List Char) (version : Nat) (k : List Char) :
    ∀ (subs : List (List Char × MMField)) (attrd res : List (List Char × AttrVal))
      (sub_k : List Char) (sf : MMField),
    add_nested_columns dataset version k subs attrd = .ok res →
    (subs.map Prod.fst).Nodup →
    (sub_k, sf) ∈ subs →
    sf.meta.postgis_geometry.getD [] ≠ [] →
    dictGet res (k ++ '_' :: sub_k)
      = some (.col { colType := .Geometry (sf.meta.postgis_geometry.getD []) 3 }) := by
  intro subs
  induction subs with
  | nil =>
    intro attrd res sub_k sf _ _ hmem
    simp at hmem
  | cons p rest ih =>
    obtain ⟨pk, pf⟩ := p
    intro attrd res sub_k sf hok hn hmem htag
    simp only [List.map_cons, List.nodup_cons] at hn
    rw [add_nested_columns] at hok
    rcases List.mem_cons.mp hmem with hhead | htail
    · have hk : sub_k = pk := congrArg Prod.fst hhead
      have hf : sf = pf := congrArg Prod.snd hhead
      rw [← hf] at hok
      rw [← hk] at hok hn
      rw [if_pos htag] at hok
      have hpres : ∀ s ∈ rest.map Prod.fst, k ++ '_' :: s ≠ k ++ '_' :: sub_k := by
        intro s hs he
        rw [key_inj he] at hs
        exact hn.1 hs
      rw [anc_preserve dataset version k rest _ _ _ hok hpres]
      exact dictGet_dictSet_self _ _ _
    · have hsub : sub_k ∈ rest.map Prod.fst := List.mem_map_of_mem Prod.fst htail
      by_cases hg : pf.meta.postgis_geometry.getD [] ≠ []
      · rw [if_pos hg] at hok
        exact ih _ _ _ _ hok hn.2 htail htag
      · rw [if_neg hg] at hok
        cases hfc : field_column_map_find pf with
        | none =>
          rw [hfc] at hok
          exact Except.noConfusion hok
        | some ct =>
          rw [hfc] at hok
          exact ih _ _ _ _ hok hn.2 htail htag

theorem anc_lookup_scalar (dataset : List Char) (version : Nat) (k : List Char) :
    ∀ (subs : List (List Char × MMField)) (attrd res : List (List Char × AttrVal))
      (sub_k : List Char) (sf : MMField),
    add_nested_columns dataset version k subs attrd = .ok res →
    (subs.map Prod.fst).Nodup →
    (sub_k, sf) ∈ subs →
    sf.meta.postgis_geometry.getD [] = [] →
    ∃ ct, field_column_map_find sf = some ct ∧
      dictGet res (k ++ '_' :: sub_k)
        = some (.col { colType := ct,
                       foreign_key :=
                         if sub_k = "root_id".data then
                           some (format_table_name dataset root_model_name_lower version
                             ++ ".id".data)
                         else none,
                       index := sf.meta.index }) := by
  intro subs
  induction subs with
  | nil =>
    intro attrd res sub_k sf _ _ hmem
    simp at hmem
  | cons p rest ih =>
    obtain ⟨pk, pf⟩ := p
    intro attrd res sub_k sf hok hn hmem htag
    simp only [List.map_cons, List.nodup_cons] at hn
    rw [add_nested_columns] at hok
    rcases List.mem_cons.mp hmem with hhead | htail
    · have hk : sub_k = pk := congrArg Prod.fst hhead
      have hf : sf = pf := congrArg Prod.snd hhead
      rw [← hf] at hok
      rw [← hk] at hok hn
      rw [if_neg (by rw [htag]; simp)] at hok
      cases hfc : field_column_map_find sf with
      | none =>
        rw [hfc] at hok
        exact Except.noConfusion hok
      | some ct =>
        rw [hfc] at hok
        refine ⟨ct, rfl, ?_⟩
        have hpres : ∀ s ∈ rest.map Prod.fst, k ++ '_' :: s ≠ k ++ '_' :: sub_k := by
          intro s hs he
          rw [key_inj he] at hs
          exact hn.1 hs
        rw [anc_preserve dataset version k rest _ _ _ hok hpres]
        exact dictGet_dictSet_self _ _ _
    · by_cases hg : pf.meta.postgis_geometry.getD [] ≠ []
      · rw [if_pos hg] at hok
        exact ih _ _ _ _ hok hn.2 htail htag
      · rw [if_neg hg] at hok
        cases hfc : field_column_map_find pf with
        | none =>
          rw [hfc] at hok
          exact Except.noConfusion hok
        | some ct =>
          rw [hfc] at hok
          exact ih _ _ _ _ hok hn.2 htail htag

/-! ## The geometry-column index invariant -/

/-- Every geometry-typed column of the dict has `index = false`. -/
def GeomNoIndex (d : List (List Char × AttrVal)) : Prop :=
  ∀ (key : List Char) (c : Column), (key, AttrVal.col c) ∈ d →
    ∀ (tag : List Char) (dim : Nat), c.colType = ColType.Geometry tag dim → c.index = false

theorem geomNoIndex_dictSet {d : List (List Char × AttrVal)} {k : List Char} {v : AttrVal}
    (hd : GeomNoIndex d)
    (hv : ∀ c, v = .col c → ∀ (tag : List Char) (dim : Nat),
      c.colType = ColType.Geometry tag dim → c.index = false) :
    GeomNoIndex (dictSet d k v) := by
  intro key c hmem tag dim hct
  rcases mem_dictSet hmem with h1 | h1
  · exact hd key c h1 tag dim hct
  · have hvc : AttrVal.col c = v := congrArg Prod.snd h1
    exact hv c hvc.symm tag dim hct

theorem field_column_map_ne_geom (t : MMFieldType) (tag : List Char) (dim : Nat) :
    field_column_map t ≠ ColType.Geometry tag dim := by
  cases t <;> simp [field_column_map]

theorem field_column_map_find_ne_geom {f : MMField} {ct : ColType}
    (h : field_column_map_find f = some ct) (tag : List Char) (dim : Nat) :
    ct ≠ ColType.Geometry tag dim := by
  cases f with
  | scalar t m =>
    have : ct = field_column_map t := by
      rw [field_column_map_find] at h
      exact (Option.some_inj.mp h).symm
    rw [this]
    exact field_column_map_ne_geom t tag dim
  | nested many subs m => exact Option.noConfusion h
  | other tn m => exact Option.noConfusion h

theorem anc_geomNoIndex (dataset : List Char) (version : Nat) (k : List Char) :
    ∀ (subs : List (List Char × MMField)) (attrd res : List (List Char × AttrVal)),
    add_nested_columns dataset version k subs attrd = .ok res →
    GeomNoIndex attrd → GeomNoIndex res := by
  intro subs
  induction subs with
  | nil =>
    intro attrd res hok hd
    cases hok
    exact hd
  | cons p rest ih =>
    obtain ⟨sub_k, sub_field⟩ := p
    intro attrd res hok hd
    rw [add_nested_columns] at hok
    by_cases hg : sub_field.meta.postgis_geometry.getD [] ≠ []
    · rw [if_pos hg] at hok
      apply ih _ _ hok
      apply geomNoIndex_dictSet hd
      intro c hc tag dim _
      have : Column.mk (.Geometry (sub_field.meta.postgis_geometry.getD []) 3)
          none false false true = c := by
        exact AttrVal.col.inj hc
      rw [← this]
    · rw [if_neg hg] at hok
      cases hfc : field_column_map_find sub_field with
      | none =>
        rw [hfc] at hok
        exact Except.noConfusion hok
      | some ct =>
        rw [hfc] at hok
        apply ih _ _ hok
        apply geomNoIndex_dictSet hd
        intro c hc tag dim hct
        exfalso
        have hcol := AttrVal.col.inj hc
        have : c.colType = ct := by rw [← hcol]
        rw [this] at hct
        exact field_column_map_find_ne_geom hfc tag dim hct

theorem add_column_geomNoIndex {attrd : List (List Char × AttrVal)} {k : List Char}
    {f : MMField} {dataset : List Char} {version : Nat} {res : List (List Char × AttrVal)}
    (hok : add_column attrd k f dataset version = .ok res) (hd : GeomNoIndex attrd) :
    GeomNoIndex res := by
  rw [add_column.eq_def] at hok
  cases hfc : field_column_map_find f with
  | some ct =>
    rw [hfc] at hok
    cases hok
    apply geomNoIndex_dictSet hd
    intro c hc tag dim hct
    exfalso
    have hcol := AttrVal.col.inj hc
    have : c.colType = ct := by rw [← hcol]
    rw [this] at hct
    exact field_column_map_find_ne_geom hfc tag dim hct
  | none =>
    rw [hfc] at hok
    cases f with
    | scalar t m => exact Except.noConfusion hok
    | other tn m => exact Except.noConfusion hok
    | nested many subs m =>
      dsimp only at hok
      by_cases hm : many
      · rw [if_pos hm] at hok
        exact Except.noConfusion hok
      · rw [if_neg hm] at hok
        exact anc_geomNoIndex dataset version k subs attrd res hok hd

theorem add_column_nodup {attrd : List (List Char × AttrVal)} {k : List Char}
    {f : MMField} {dataset : List Char} {version : Nat} {res : List (List Char × AttrVal)}
    (hok : add_column attrd k f dataset version = .ok res)
    (hn : (attrd.map Prod.fst).Nodup) : (res.map Prod.fst).Nodup := by
  rw [add_column.eq_def] at hok
  cases hfc : field_column_map_find f with
  | some ct =>
    rw [hfc] at hok
    cases hok
    exact nodupKeys_dictSet _ _ hn
  | none =>
    rw [hfc] at hok
    cases f with
    | scalar t m => exact Except.noConfusion hok
    | other tn m => exact Except.noConfusion hok
    | nested many subs m =>
      dsimp only at hok
      by_cases hm : many
      · rw [if_pos hm] at hok
        exact Except.noConfusion hok
      · rw [if_neg hm] at hok
        exact anc_nodup dataset version k subs attrd res hok hn

theorem declare_loop_geomNoIndex (dataset : List Char) (version : Nat) :
    ∀ (fields : List (List Char × MMField)) (attrd res : List (List Char × AttrVal)),
    declare_fields_loop dataset version fields attrd = .ok res →
    GeomNoIndex attrd → GeomNoIndex res := by
  intro fields
  induction fields with
  | nil =>
    intro attrd res hok hd
    cases hok
    exact hd
  | cons p rest ih =>
    obtain ⟨k, f⟩ := p
    intro attrd res hok hd
    rw [declare_fields_loop] at hok
    by_cases hdrop : f.meta.drop_column
    · rw [if_pos hdrop] at hok
      exact ih _ _ hok hd
    · rw [if_neg hdrop] at hok
      cases hac : add_column attrd k f dataset version with
      | error e =>
        rw [hac] at hok
        exact Except.noConfusion hok
      | ok attrd2 =>
        rw [hac] at hok
        exact ih _ _ hok (add_column_geomNoIndex hac hd)

theorem declare_loop_nodup (dataset : List Char) (version : Nat) :
    ∀ (fields : List (List Char × MMField)) (attrd res : List (List Char × AttrVal)),
    declare_fields_loop dataset version fields attrd = .ok res →
    (attrd.map Prod.fst).Nodup → (res.map Prod.fst).Nodup := by
  intro fields
  induction fields with
  | nil =>
    intro attrd res hok hn
    cases hok
    exact hn
  | cons p rest ih =>
    obtain ⟨k, f⟩ := p
    intro attrd res hok hn
    rw [declare_fields_loop] at hok
    by_cases hdrop : f.meta.drop_column
    · rw [if_pos hdrop] at hok
      exact ih _ _ hok hn
    · rw [if_neg hdrop] at hok
      cases hac : add_column attrd k f dataset version with
      | error e =>
        rw [hac] at hok
        exact Except.noConfusion hok
      | ok attrd2 =>
        rw [hac] at hok
        exact ih _ _ hok (add_column_nodup hac hn)

/-! ## Inversion of the model compiler -/

theorem declare_ok_inversion {dataset table_name : List Char} {S : SchemaDef} {version : Nat}
    {td : TableDef}
    (hok : declare_annotation_model_from_schema dataset table_name S version = .ok td) :
    ∃ attrd1,
      declare_fields_loop dataset version S.declared_fields
        (initAttrd dataset table_name version) = .ok attrd1
      ∧ ((S.is_reference = false ∧ td.attrd = attrd1)
         ∨ (S.is_reference = true
            ∧ ∃ tf rt, dictGet S.declared_fields "target_id".data = some tf
                ∧ tf.meta.reference_type = some rt
                ∧ td.attrd = dictSet attrd1 "target_id".data
                    (.col { colType := .Integer,
                            foreign_key := some (dataset ++ '_' :: rt ++ ".id".data) }))) := by
  rw [declare_annotation_model_from_schema] at hok
  cases hloop : declare_fields_loop dataset version S.declared_fields
      (initAttrd dataset table_name version) with
  | error e =>
    rw [hloop] at hok
    exact Except.noConfusion hok
  | ok attrd1 =>
    refine ⟨attrd1, rfl, ?_⟩
    rw [hloop] at hok
    cases href : S.is_reference with
    | false =>
      rw [href] at hok
      dsimp only at hok
      left
      refine ⟨rfl, ?_⟩
      have h2 := Except.ok.inj hok
      rw [← h2]
    | true =>
      rw [href] at hok
      dsimp only at hok
      right
      refine ⟨rfl, ?_⟩
      cases htf : dictGet S.declared_fields "target_id".data with
      | none =>
        rw [htf] at hok
        dsimp only at hok
        exact Except.noConfusion hok
      | some tf =>
        rw [htf] at hok
        dsimp only at hok
        cases hrt : tf.meta.reference_type with
        | none =>
          rw [hrt] at hok
          dsimp only at hok
          exact Except.noConfusion hok
        | some rt =>
          rw [hrt] at hok
          dsimp only at hok
          refine ⟨tf, rt, rfl, hrt, ?_⟩
          have h2 := Except.ok.inj hok
          rw [← h2]

theorem geomNoIndex_init (dataset table_name : List Char) (version : Nat) :
    GeomNoIndex (initAttrd dataset table_name version) := by
  intro key c hmem tag dim hct
  rcases List.mem_cons.mp hmem with h | h
  · exact AttrVal.noConfusion (congrArg Prod.snd h)
  rcases List.mem_cons.mp h with h | h
  · exact AttrVal.noConfusion (congrArg Prod.snd h)
  rcases List.mem_cons.mp h with h | h
  · exfalso
    have hc : c = idColumn := AttrVal.col.inj (congrArg Prod.snd h)
    rw [hc] at hct
    exact ColType.noConfusion hct
  · simp at h

theorem nodup_init (dataset table_name : List Char) (version : Nat) :
    ((initAttrd dataset table_name version).map Prod.fst).Nodup := by
  rw [initAttrd]
  simp only [List.map_cons, List.map_nil]
  decide

/-! ## Lemmas on the all-scalar field loop -/

theorem declare_loop_scalar_count (dataset : List Char) (version : Nat) :
    ∀ (fields : List (List Char × MMField)) (attrd : List (List Char × AttrVal)),
    (∀ p ∈ fields, isScalarField p.2 = true) →
    (fields.map Prod.fst).Nodup →
    (∀ p ∈ fields, isColOpt (dictGet attrd p.1) = false) →
    ∃ res, declare_fields_loop dataset version fields attrd = .ok res
      ∧ countCols res = countCols attrd
          + (fields.filter (fun p => !p.2.meta.drop_column)).length
      ∧ ∀ key, key ∉ fields.map Prod.fst → dictGet res key = dictGet attrd key := by
  intro fields
  induction fields with
  | nil =>
    intro attrd _ _ _
    exact ⟨attrd, rfl, by simp [List.filter_nil], fun key _ => rfl⟩
  | cons p rest ih =>
    obtain ⟨fk, ff⟩ := p
    intro attrd hs hn hfree
    have hsf : isScalarField ff = true := hs (fk, ff) (List.mem_cons_self _ _)
    obtain ⟨t, m, hff⟩ : ∃ t m, ff = MMField.scalar t m := by
      cases ff with
      | scalar t m => exact ⟨t, m, rfl⟩
      | nested a b c => simp [isScalarField] at hsf
      | other a b => simp [isScalarField] at hsf
    subst hff
    simp only [List.map_cons, List.nodup_cons] at hn
    have hs2 : ∀ p ∈ rest, isScalarField p.2 = true :=
      fun p hp => hs p (List.mem_cons_of_mem _ hp)
    rw [declare_fields_loop]
    by_cases hdrop : (MMField.scalar t m).meta.drop_column = true
    · rw [if_pos hdrop]
      have hfree2 : ∀ p ∈ rest, isColOpt (dictGet attrd p.1) = false :=
        fun p hp => hfree p (List.mem_cons_of_mem _ hp)
      obtain ⟨res, h1, h2, h3⟩ := ih attrd hs2 hn.2 hfree2
      refine ⟨res, h1, ?_, ?_⟩
      · rw [h2, List.filter_cons, if_neg (by simp [hdrop])]
      · intro key hkey
        exact h3 key (fun hx => hkey (by rw [List.map_cons]; exact List.mem_cons_of_mem _ hx))
    · rw [if_neg hdrop]
      have hac : add_column attrd fk (MMField.scalar t m) dataset version
          = .ok (dictSet attrd fk
              (.col { colType := field_column_map t, index := m.index })) := rfl
      rw [hac]
      have hfree_fk : isColOpt (dictGet attrd fk) = false :=
        hfree (fk, MMField.scalar t m) (List.mem_cons_self _ _)
      have hcount2 : countCols (dictSet attrd fk
          (.col { colType := field_column_map t, index := m.index }))
          = countCols attrd + 1 := by
        rw [countCols_dictSet, hfree_fk]
        simp
      have hfree2 : ∀ p ∈ rest, isColOpt (dictGet (dictSet attrd fk
          (.col { colType := field_column_map t, index := m.index })) p.1) = false := by
        intro p hp
        have hne : p.1 ≠ fk := by
          intro he
          apply hn.1
          rw [← he]
          exact List.mem_map_of_mem Prod.fst hp
        rw [dictGet_dictSet_ne _ _ hne]
        exact hfree p (List.mem_cons_of_mem _ hp)
      obtain ⟨res, h1, h2, h3⟩ := ih _ hs2 hn.2 hfree2
      refine ⟨res, h1, ?_, ?_⟩
      · rw [h2, hcount2, List.filter_cons, if_pos (by simp [hdrop])]
        rw [List.length_cons]
        omega
      · intro key hkey
        have hk1 : key ∉ rest.map Prod.fst :=
          fun hx => hkey (by rw [List.map_cons]; exact List.mem_cons_of_mem _ hx)
        have hkfk : key ≠ fk :=
          fun he => hkey (by rw [List.map_cons, he]; exact List.mem_cons_self _ _)
        rw [h3 key hk1, dictGet_dictSet_ne _ _ hkfk]

theorem isColOpt_init {dataset table_name : List Char} {version : Nat} {key : List Char}
    (h : key ≠ "id".data) :
    isColOpt (dictGet (initAttrd dataset table_name version) key) = false := by
  rw [initAttrd, dictGet]
  by_cases h1 : "__tablename__".data = key
  · rw [if_pos h1]; rfl
  · rw [if_neg h1, dictGet]
    by_cases h2 : "__mapper_args__".data = key
    · rw [if_pos h2]; rfl
    · rw [if_neg h2, dictGet, if_neg (fun he => h he.symm), dictGet]
      rfl

theorem dictGet_init_id (dataset table_name : List Char) (version : Nat) :
    dictGet (initAttrd dataset table_name version) "id".data = some (.col idColumn) := by
  rw [initAttrd, dictGet, if_neg (by decide), dictGet, if_neg (by decide), dictGet,
    if_pos rfl]

theorem countCols_init (dataset table_name : List Char) (version : Nat) :
    countCols (initAttrd dataset table_name version) = 1 := rfl

/-! # The claims -/

/-- C1: for every (dataset, table_name, version) key, requesting the model
twice through the cache returns the identical stored object both times, and
the second request performs no new compilation work: whenever a first call
succeeds with model `m`, store `store1` and any compilation count, the second
call returns the same `m`, leaves the store at `store1`, and its compilation
count is `0` (the `declare` compile function is not invoked again). -/
theorem C1_cache_second_call (store : ModelStore) (dataset table_name : List Char)
    (Schema : SchemaDef) (version : Nat) (m : TableDef) (store1 : ModelStore) (n1 : Nat)
    (h : make_annotation_model_from_schema store dataset table_name Schema version
      = .ok (m, store1, n1)) :
    make_annotation_model_from_schema store1 dataset table_name Schema version
      = .ok (m, store1, 0) := by
  rw [make_annotation_model_from_schema] at h
  by_cases hc : store.contains_model dataset table_name version = true
  · rw [if_pos hc] at h
    cases hg : store.get_model dataset table_name version with
    | none =>
      rw [hg] at h
      exact Except.noConfusion h
    | some m0 =>
      rw [hg] at h
      dsimp only at h
      have h2 := Except.ok.inj h
      have hm : m0 = m := congrArg (fun x => x.1) h2
      have hst : store = store1 := congrArg (fun x => x.2.1) h2
      rw [make_annotation_model_from_schema, ← hst, if_pos hc, hg]
      dsimp only
      rw [hm]
  · rw [if_neg hc] at h
    cases hd : declare_annotation_model_from_schema dataset table_name Schema version with
    | error e =>
      rw [hd] at h
      exact Except.noConfusion h
    | ok M =>
      rw [hd] at h
      dsimp only at h
      have hgm : (store.set_model dataset table_name M version).get_model
          dataset table_name version = some M := by
        rw [ModelStore.get_model, ModelStore.set_model]
        exact dictGet_dictSet_self _ _ _
      rw [hgm] at h
      dsimp only at h
      have h2 := Except.ok.inj h
      have hm : M = m := congrArg (fun x => x.1) h2
      have hst : store.set_model dataset table_name M version = store1 :=
        congrArg (fun x => x.2.1) h2
      have hc1 : store1.contains_model dataset table_name version = true := by
        rw [← hst, ModelStore.contains_model]
        rw [show (store.set_model dataset table_name M version).container
            = dictSet store.container (ModelStore.to_key dataset table_name version) M
            from rfl]
        rw [dictGet_dictSet_self]
        rfl
      have hg1 : store1.get_model dataset table_name version = some m := by
        rw [← hst, ← hm]
        exact hgm
      rw [make_annotation_model_from_schema, if_pos hc1, hg1]

/-- Empty schema (no declared fields, not a reference schema). -/
def emptySchemaEx : SchemaDef := ⟨[], false⟩

/-- Model obtained by compiling `emptySchemaEx` for dataset `d`, table `t`,
version 1. -/
def tdEx : TableDef :=
  ⟨"DT".data,
   [("__tablename__".data, .str "d_t_v1".data),
    ("__mapper_args__".data, .mapper "d".data true),
    ("id".data, .col idColumn)]⟩

/-- Store state after that compilation. -/
def storeEx : ModelStore := ⟨[("d_t_v1".data, tdEx)]⟩

/-- Witness for C1 at a concrete input: the first call on the empty store
compiles (count 1), the second call returns the identical model with
count 0. -/
theorem C1_cache_second_call_witness :
    make_annotation_model_from_schema storeEx "d".data "t".data emptySchemaEx 1
      = .ok (tdEx, storeEx, 0) :=
  C1_cache_second_call ⟨[]⟩ "d".data "t".data emptySchemaEx 1 tdEx storeEx 1 rfl

/-- C2: for every dataset string, table string and version integer, decoding
the version from the encoded canonical name returns that version:
`get_table_version (format_table_name dataset table version) = version`. -/
theorem C2_version_roundtrip (dataset table_name : List Char) (version : Nat) :
    get_table_version (format_table_name dataset table_name version)
      = some (version : Int) :=
  get_table_version_format dataset table_name version

/-- C3: a `make_dataset_models` request containing at least one schema name
outside the registry's valid-name set returns the unknown-schema error whose
payload is exactly the invalid names of the request in order (so it carries
every invalid name, not just the first), and the model store is returned
completely unchanged — no table of the request (nor the root table) is
compiled or cached. -/
theorem C3_unknown_schema_precheck (registry : List (List Char × SchemaDef))
    (Contact : SchemaDef) (store : ModelStore) (dataset : List Char)
    (schemas_and_tables : List (List Char × List Char)) (version : Nat)
    (include_contacts : Bool) (p : List Char × List Char)
    (hp : p ∈ schemas_and_tables)
    (hbad : memList (registry.map Prod.fst) p.1 = false) :
    make_dataset_models registry Contact store dataset schemas_and_tables version
        include_contacts
      = (.error (.unknownAnnotationType
          ((schemas_and_tables.filter
            (fun q => !(memList (registry.map Prod.fst) q.1))).map Prod.fst)), store)
    ∧ ∀ q ∈ schemas_and_tables, memList (registry.map Prod.fst) q.1 = false →
        q.1 ∈ (schemas_and_tables.filter
          (fun q2 => !(memList (registry.map Prod.fst) q2.1))).map Prod.fst := by
  have hall : schemas_and_tables.all (fun q => memList (registry.map Prod.fst) q.1)
      = false := by
    cases hx : schemas_and_tables.all (fun q => memList (registry.map Prod.fst) q.1) with
    | false => rfl
    | true =>
      exfalso
      have hq := List.all_eq_true.mp hx p hp
      rw [hbad] at hq
      exact Bool.noConfusion hq
  constructor
  · have hv : validate_types (registry.map Prod.fst) schemas_and_tables
        = .error (.unknownAnnotationType ((schemas_and_tables.filter
            (fun q => !(memList (registry.map Prod.fst) q.1))).map Prod.fst)) := by
      rw [validate_types, if_neg (by rw [hall]; simp)]
    rw [make_dataset_models, hv]
  · intro q hq hbadq
    apply List.mem_map_of_mem Prod.fst
    rw [List.mem_filter]
    exact ⟨hq, by rw [hbadq]; rfl⟩

/-- Witness for C3 at a concrete input: a request with the unknown schema
name `bogus` fails with exactly that name and leaves the empty store
untouched. -/
theorem C3_unknown_schema_precheck_witness :
    make_dataset_models [("synapse".data, emptySchemaEx)] emptySchemaEx ⟨[]⟩ "d".data
        [("bogus".data, "t1".data)] 1 false
      = (.error (.unknownAnnotationType ["bogus".data]), ⟨[]⟩)
    ∧ "bogus".data ∈ ["bogus".data] := by
  have h := C3_unknown_schema_precheck [("synapse".data, emptySchemaEx)] emptySchemaEx
    ⟨[]⟩ "d".data [("bogus".data, "t1".data)] 1 false ("bogus".data, "t1".data)
    (List.mem_cons_self _ _) (by decide)
  exact ⟨h.1, h.2 ("bogus".data, "t1".data) (List.mem_cons_self _ _) (by decide)⟩

/-- All-scalar schema whose single field is named `id`. -/
def idFieldSchemaEx : SchemaDef := ⟨[("id".data, .scalar .Int {})], false⟩

/-- C4 counterexample: for the all-scalar, non-reference schema whose single
non-dropped field is named `id`, the compiled table has 1 column, not the
claimed `nonDroppedCount + 1 = 2`: the field assignment overwrites the
primary-key `id` entry of the attribute dict instead of adding a column. -/
theorem C4_id_field_counterexample :
    idFieldSchemaEx.declared_fields.all (fun q => isScalarField q.2) = true
    ∧ idFieldSchemaEx.is_reference = false
    ∧ nonDroppedCount idFieldSchemaEx = 1
    ∧ (declare_annotation_model_from_schema "d".data "t".data idFieldSchemaEx 1).map
        (fun td => countCols td.attrd) = .ok 1
    ∧ (1 : Nat) ≠ nonDroppedCount idFieldSchemaEx + 1 := by
  exact ⟨rfl, rfl, rfl, rfl, by decide⟩

/-- C4 (amended): for every all-scalar, non-reference schema none of whose
field names is `id` (field names are distinct, as they come from a Python
dict), the compiled table has exactly one column per non-dropped field plus
the primary-key column `id`. -/
theorem C4_scalar_column_count (dataset table_name : List Char) (S : SchemaDef)
    (version : Nat)
    (hs : ∀ q ∈ S.declared_fields, isScalarField q.2 = true)
    (hr : S.is_reference = false)
    (hn : (S.declared_fields.map Prod.fst).Nodup)
    (hid : "id".data ∉ S.declared_fields.map Prod.fst) :
    ∃ td, declare_annotation_model_from_schema dataset table_name S version = .ok td
      ∧ countCols td.attrd = nonDroppedCount S + 1
      ∧ dictGet td.attrd "id".data = some (.col idColumn) := by
  have hfree : ∀ q ∈ S.declared_fields,
      isColOpt (dictGet (initAttrd dataset table_name version) q.1) = false := by
    intro q hq
    apply isColOpt_init
    intro he
    apply hid
    rw [← he]
    exact List.mem_map_of_mem Prod.fst hq
  obtain ⟨res, h1, h2, h3⟩ := declare_loop_scalar_count dataset version S.declared_fields
    (initAttrd dataset table_name version) hs hn hfree
  refine ⟨⟨pyCapitalize dataset ++ pyCapitalize table_name, res⟩, ?_, ?_, ?_⟩
  · rw [declare_annotation_model_from_schema, h1, hr]
    dsimp only
    rw [if_neg (by simp)]
  · show countCols res = nonDroppedCount S + 1
    rw [h2, countCols_init, nonDroppedCount]
    omega
  · show dictGet res "id".data = some (.col idColumn)
    rw [h3 ("id".data) hid]
    exact dictGet_init_id dataset table_name version

/-- All-scalar example schema: one plain integer field, one dropped float
field. -/
def scalarSchemaEx : SchemaDef :=
  ⟨[("a".data, .scalar .Int {}), ("b".data, .scalar .Float { drop_column := true })],
   false⟩

/-- Model obtained by compiling `scalarSchemaEx` for dataset `d`, table `t`,
version 1. -/
def scalarTdEx : TableDef :=
  ⟨"DT".data,
   [("__tablename__".data, .str "d_t_v1".data),
    ("__mapper_args__".data, .mapper "d".data true),
    ("id".data, .col idColumn),
    ("a".data, .col { colType := .Integer })]⟩

/-- Witness for the amended C4 at a concrete input. -/
theorem C4_scalar_column_count_witness :
    countCols scalarTdEx.attrd = nonDroppedCount scalarSchemaEx + 1
    ∧ dictGet scalarTdEx.attrd "id".data = some (.col idColumn) := by
  obtain ⟨td, h1, h2, h3⟩ := C4_scalar_column_count "d".data "t".data scalarSchemaEx 1
    (by intro q hq
        rcases List.mem_cons.mp hq with h | h
        · rw [h]; rfl
        · rw [List.mem_singleton.mp h]; rfl)
    rfl (by decide) (by decide)
  have htd : td = scalarTdEx :=
    Except.ok.inj (h1.symm.trans
      (rfl : declare_annotation_model_from_schema "d".data "t".data scalarSchemaEx 1
        = .ok scalarTdEx))
  rw [htd] at h2 h3
  exact ⟨h2, h3⟩

/-- Inversion of `add_column` on a `Nested` field: success implies
`many = false` and success of the sub-field loop. -/
theorem add_column_nested_ok {attrd : List (List Char × AttrVal)} {k : List Char}
    {many : Bool} {subs : List (List Char × MMField)} {fmeta : Meta}
    {dataset : List Char} {version : Nat} {res : List (List Char × AttrVal)}
    (hok : add_column attrd k (.nested many subs fmeta) dataset version = .ok res) :
    many = false ∧ add_nested_columns dataset version k subs attrd = .ok res := by
  rw [add_column.eq_def] at hok
  dsimp only [field_column_map_find] at hok
  by_cases hm : many = true
  · rw [if_pos hm] at hok
    exact Except.noConfusion hok
  · rw [if_neg hm] at hok
    have hm2 : many = false := by
      cases many
      · rfl
      · exact absurd rfl hm
    exact ⟨hm2, hok⟩

/-- Nested field whose sub-field carries an empty-string geometry tag. -/
def emptyTagFieldEx : MMField :=
  .nested false [("pos".data, .scalar .Int { postgis_geometry := some [] })] {}

/-- C5 counterexample: a nested sub-field carrying a `postgis_geometry`
metadata tag whose value is the empty string (present, hence "carrying the
tag", but falsy in Python) is flattened through the scalar branch: the
emitted column is `Integer`, not the claimed 3-dimensional geometry type. -/
theorem C5_empty_tag_counterexample :
    add_column [] "pt".data emptyTagFieldEx "d".data 1
      = .ok [("pt_pos".data, .col { colType := .Integer })]
    ∧ (MMField.scalar .Int { postgis_geometry := some [] }).meta.postgis_geometry.isSome
        = true := by
  exact ⟨rfl, rfl⟩

/-- C5 (amended): for every nested field, every sub-field carrying a
non-empty (truthy) `postgis_geometry` tag yields one column typed with the
opaque geometry type with dimension 3 — never the sub-field's own scalar
mapping, regardless of the sub-field's declared kind. -/
theorem C5_geometry_truthy_tag (dataset : List Char) (version : Nat) (k : List Char)
    (many : Bool) (subs : List (List Char × MMField)) (fmeta : Meta)
    (attrd res : List (List Char × AttrVal)) (sub_k : List Char) (sf : MMField)
    (tag : List Char)
    (hok : add_column attrd k (.nested many subs fmeta) dataset version = .ok res)
    (hn : (subs.map Prod.fst).Nodup)
    (hmem : (sub_k, sf) ∈ subs)
    (htag : sf.meta.postgis_geometry = some tag) (hne : tag ≠ []) :
    dictGet res (k ++ '_' :: sub_k) = some (.col { colType := .Geometry tag 3 }) := by
  obtain ⟨hm, hanc⟩ := add_column_nested_ok hok
  have h := anc_lookup_geom dataset version k subs attrd res sub_k sf hanc hn hmem
    (by rw [htag, Option.getD_some]; exact hne)
  rw [htag, Option.getD_some] at h
  exact h

/-- Sub-fields of the witness nested field: an integer point coordinate with
a truthy geometry tag and the indexed flag set. -/
def geomSubEx : List (List Char × MMField) :=
  [("position".data, .scalar .Int { index := true, postgis_geometry := some "POINTZ".data })]

/-- Columns emitted for the witness nested field. -/
def geomResEx : List (List Char × AttrVal) :=
  [("pt_position".data, .col { colType := .Geometry "POINTZ".data 3 })]

/-- Witness for the amended C5 at a concrete input. -/
theorem C5_geometry_truthy_tag_witness :
    dictGet geomResEx ("pt".data ++ '_' :: "position".data)
      = some (.col { colType := .Geometry "POINTZ".data 3 }) :=
  C5_geometry_truthy_tag "d".data 1 "pt".data false geomSubEx {} [] geomResEx
    "position".data (.scalar .Int { index := true, postgis_geometry := some "POINTZ".data })
    "POINTZ".data rfl (by decide) (List.mem_cons_self _ _) rfl (by decide)

/-- C6: for every nested field containing a sub-field named exactly `root_id`
without a (truthy) geometry tag, when flattening succeeds the emitted column
`<field>_root_id` carries the foreign-key target
`format_table_name dataset "cellsegment" version ++ ".id"`, i.e.
`"{dataset}_cellsegment_v{version}.id"`. -/
theorem C6_root_id_foreign_key (dataset : List Char) (version : Nat) (k : List Char)
    (many : Bool) (subs : List (List Char × MMField)) (fmeta : Meta)
    (attrd res : List (List Char × AttrVal)) (sf : MMField)
    (hok : add_column attrd k (.nested many subs fmeta) dataset version = .ok res)
    (hn : (subs.map Prod.fst).Nodup)
    (hmem : ("root_id".data, sf) ∈ subs)
    (htag : sf.meta.postgis_geometry.getD [] = []) :
    ∃ ct, field_column_map_find sf = some ct ∧
      dictGet res (k ++ '_' :: "root_id".data)
        = some (.col { colType := ct,
                       foreign_key := some (format_table_name dataset "cellsegment".data
                         version ++ ".id".data),
                       index := sf.meta.index }) := by
  obtain ⟨hm, hanc⟩ := add_column_nested_ok hok
  obtain ⟨ct, hct, hlook⟩ := anc_lookup_scalar dataset version k subs attrd res
    "root_id".data sf hanc hn hmem htag
  refine ⟨ct, hct, ?_⟩
  rw [if_pos (rfl : "root_id".data = "root_id".data)] at hlook
  exact hlook

/-- Sub-fields of the witness nested field for C6. -/
def rootSubEx : List (List Char × MMField) := [("root_id".data, .scalar .NumericField {})]

/-- Columns emitted for the witness nested field of C6. -/
def rootResEx : List (List Char × AttrVal) :=
  [("pre_pt_root_id".data,
    .col { colType := .Numeric, foreign_key := some "d_cellsegment_v2.id".data })]

/-- Witness for C6 at a concrete input. -/
theorem C6_root_id_foreign_key_witness :
    dictGet rootResEx ("pre_pt".data ++ '_' :: "root_id".data)
      = some (.col { colType := .Numeric,
                     foreign_key := some (format_table_name "d".data "cellsegment".data 2
                       ++ ".id".data) }) := by
  obtain ⟨ct, hct, hlook⟩ := C6_root_id_foreign_key "d".data 2 "pre_pt".data false
    rootSubEx {} [] rootResEx (.scalar .NumericField {}) rfl (by decide)
    (List.mem_cons_self _ _) rfl
  have hctv : ColType.Numeric = ct :=
    Option.some_inj.mp
      ((rfl : field_column_map_find (MMField.scalar .NumericField {})
          = some .Numeric).symm.trans hct)
  rw [← hctv] at hlook
  exact hlook

/-- Reference schema whose `target_id` field is itself an ordinary indexed
integer field. -/
def refSchemaEx : SchemaDef :=
  ⟨[("target_id".data,
     .scalar .Int { index := true, reference_type := some "synapse".data })],
   true⟩

/-- Model obtained by compiling `refSchemaEx` for dataset `d`, table `t`,
version 1. -/
def refTdEx : TableDef :=
  ⟨"DT".data,
   [("__tablename__".data, .str "d_t_v1".data),
    ("__mapper_args__".data, .mapper "d".data true),
    ("id".data, .col idColumn),
    ("target_id".data,
     .col { colType := .Integer, foreign_key := some "d_synapse.id".data })]⟩

/-- C7 counterexample: for a reference schema whose `target_id` field is an
ordinary indexed integer field, the compiled table contains exactly ONE
`target_id` entry — the reference foreign-key column, which has overwritten
the column produced by ordinary flattening (its indexed flag is gone) —
so the two columns do not coexist, contradicting the "additive" part of the
claim. -/
theorem C7_overwrite_counterexample :
    declare_annotation_model_from_schema "d".data "t".data refSchemaEx 1 = .ok refTdEx
    ∧ countCols refTdEx.attrd = 2
    ∧ dictGet refTdEx.attrd "target_id".data
        = some (.col { colType := .Integer, foreign_key := some "d_synapse.id".data })
    ∧ (refTdEx.attrd.filter (fun q => decide (q.1 = "target_id".data))).length = 1 := by
  exact ⟨rfl, rfl, rfl, rfl⟩

/-- C7 (amended): for every reference schema with a `target_id` field whose
metadata names a `reference_type`, the compiled table's `target_id` entry is
the foreign-key column referencing `"{dataset}_{reference_type}.id"`, and it
is the ONLY `target_id` entry: the reference column replaces (overwrites,
last-wins) whatever ordinary flattening of `target_id` produced — the two do
not coexist. -/
theorem C7_reference_target_id (dataset table_name : List Char) (S : SchemaDef)
    (version : Nat) (td : TableDef) (tf : MMField) (rt : List Char)
    (hok : declare_annotation_model_from_schema dataset table_name S version = .ok td)
    (href : S.is_reference = true)
    (htf : dictGet S.declared_fields "target_id".data = some tf)
    (hrt : tf.meta.reference_type = some rt) :
    dictGet td.attrd "target_id".data
      = some (.col { colType := .Integer,
                     foreign_key := some (dataset ++ '_' :: rt ++ ".id".data) })
    ∧ (td.attrd.filter (fun q => decide (q.1 = "target_id".data))).length = 1 := by
  obtain ⟨attrd1, hloop, hcase⟩ := declare_ok_inversion hok
  rcases hcase with ⟨hf, _⟩ | ⟨_, tf2, rt2, htf2, hrt2, he⟩
  · rw [href] at hf
    exact Bool.noConfusion hf
  · rw [htf] at htf2
    have htf3 : tf = tf2 := Option.some_inj.mp htf2
    rw [← htf3, hrt] at hrt2
    have hrt3 : rt = rt2 := Option.some_inj.mp hrt2
    rw [← hrt3] at he
    rw [he]
    constructor
    · exact dictGet_dictSet_self _ _ _
    · have hnodup1 : (attrd1.map Prod.fst).Nodup :=
        declare_loop_nodup dataset version S.declared_fields _ _ hloop
          (nodup_init dataset table_name version)
      exact filter_key_length_one (nodupKeys_dictSet _ _ hnodup1)
        (dictGet_dictSet_self _ _ _)

/-- Witness for the amended C7 at a concrete input. -/
theorem C7_reference_target_id_witness :
    dictGet refTdEx.attrd "target_id".data
      = some (.col { colType := .Integer,
                     foreign_key := some ("d".data ++ '_' :: "synapse".data ++ ".id".data) })
    ∧ (refTdEx.attrd.filter (fun q => decide (q.1 = "target_id".data))).length = 1 :=
  C7_reference_target_id "d".data "t".data refSchemaEx 1 refTdEx
    (.scalar .Int { index := true, reference_type := some "synapse".data })
    "synapse".data rfl rfl rfl rfl

/-- Nested field whose sub-field is itself a nested record (nesting depth 2),
with no geometry tag. -/
def nestedNestedFieldEx : MMField := .nested false [("sub".data, .nested false [] {})] {}

/-- C8 (code bug evaluation): flattening a nested field whose sub-field is
itself nested aborts with the bare key-lookup error of
`field_column_map[type(sub_field)]` (a Python `KeyError`), not with the
`InvalidSchemaField` error the claim (and the source's own error taxonomy)
prescribes; no column is produced for the field. -/
theorem C8_nested_nested_keyerror :
    add_column [] "a".data nestedNestedFieldEx "d".data 1 = .error .keyError
    ∧ ModelError.keyError
        ≠ ModelError.invalidSchemaField "Nested many=True not supported".data := by
  exact ⟨rfl, by decide⟩

/-- Input whose trailing segment is `q7`: no `v<int>` version segment, yet
the decoder succeeds. -/
theorem C9_missing_v_counterexample :
    get_table_version "a_b_q7".data = some 7
    ∧ (lastSegment "a_b_q7".data).take 1 ≠ ['v'] := by
  exact ⟨by decide, by decide⟩

/-- C9 (amended): the decoder drops the first character of the final
underscore-separated segment WITHOUT checking that it is `v`, and parses the
remainder with Python `int`.  It therefore fails whenever that remainder is
empty or contains a character that is not a digit, a sign, or whitespace —
but it does not fail merely because the `v` marker is absent — and on
well-formed canonical names it returns the encoded version. -/
theorem C9_decoder_behaviour :
    (∀ s : List Char,
        ((lastSegment s).drop 1 = [] ∨ hasBadChar ((lastSegment s).drop 1) = true) →
        get_table_version s = none)
    ∧ (∀ (dataset table_name : List Char) (version : Nat),
        get_table_version (format_table_name dataset table_name version)
          = some (version : Int)) := by
  constructor
  · intro s hs
    rcases hs with hnil | hbad
    · rw [get_table_version, hnil]
      rfl
    · rw [get_table_version]
      simp only [hasBadChar, List.any_eq_true, Bool.and_eq_true] at hbad
      obtain ⟨c, hcmem, hcond⟩ := hbad
      obtain ⟨⟨⟨hdig, hplus⟩, hminus⟩, hspace⟩ := hcond
      have hdig2 : isDigitChar c = false := by
        cases hx : isDigitChar c
        · rfl
        · rw [hx] at hdig; exact absurd hdig (by decide)
      have hspace2 : isPySpace c = false := by
        cases hx : isPySpace c
        · rfl
        · rw [hx] at hspace; exact absurd hspace (by decide)
      have hplus2 : c ≠ '+' := by
        intro he
        rw [he] at hplus
        exact absurd hplus (by decide)
      have hminus2 : c ≠ '-' := by
        intro he
        rw [he] at hminus
        exact absurd hminus (by decide)
      exact pythonInt_none_of_badchar hcmem hdig2 hplus2 hminus2 hspace2
  · exact get_table_version_format

/-- Witness for the amended C9 at concrete inputs: a non-numeric version
remainder fails, and a canonical name decodes to its version. -/
theorem C9_decoder_behaviour_witness :
    get_table_version "a_b_vxy".data = none
    ∧ get_table_version (format_table_name "d".data "t".data 5) = some 5 :=
  ⟨C9_decoder_behaviour.1 ("a_b_vxy".data) (Or.inr (by decide)),
   C9_decoder_behaviour.2 "d".data "t".data 5⟩

/-- C10 (implicit): every geometry-typed column of a compiled table is
created without an index, even when the originating sub-field's `index`
metadata flag is true — the indexed flag is honored only on the non-geometry
branch, so no geometry column of any compiled model is ever indexed. -/
theorem C10_geometry_never_indexed (dataset table_name : List Char) (S : SchemaDef)
    (version : Nat) (td : TableDef) (key : List Char) (c : Column) (tag : List Char)
    (dim : Nat)
    (hok : declare_annotation_model_from_schema dataset table_name S version = .ok td)
    (hmem : (key, AttrVal.col c) ∈ td.attrd)
    (hct : c.colType = .Geometry tag dim) :
    c.index = false := by
  obtain ⟨attrd1, hloop, hcase⟩ := declare_ok_inversion hok
  have h1 : GeomNoIndex attrd1 :=
    declare_loop_geomNoIndex dataset version S.declared_fields _ _ hloop
      (geomNoIndex_init dataset table_name version)
  rcases hcase with ⟨_, he⟩ | ⟨_, tf, rt, _, _, he⟩
  · rw [he] at hmem
    exact h1 key c hmem tag dim hct
  · rw [he] at hmem
    refine geomNoIndex_dictSet h1 ?_ key c hmem tag dim hct
    intro c2 hc2 tag2 dim2 hct2
    exfalso
    have hx := AttrVal.col.inj hc2
    rw [← hx] at hct2
    exact ColType.noConfusion hct2

/-- Schema with one nested field whose sub-field has a truthy geometry tag
and the indexed metadata flag set. -/
def geomSchemaEx : SchemaDef := ⟨[("pt".data, .nested false geomSubEx {})], false⟩

/-- Model obtained by compiling `geomSchemaEx` for dataset `d`, table `t`,
version 1: the geometry column is emitted with `index = false` although the
sub-field's metadata requested an index. -/
def geomTdEx : TableDef :=
  ⟨"DT".data,
   [("__tablename__".data, .str "d_t_v1".data),
    ("__mapper_args__".data, .mapper "d".data true),
    ("id".data, .col idColumn),
    ("pt_position".data, .col { colType := .Geometry "POINTZ".data 3 })]⟩

/-- Witness for C10 at a concrete input (the sub-field's indexed flag is
true, yet the geometry column has no index). -/
theorem C10_geometry_never_indexed_witness :
    (Column.mk (.Geometry "POINTZ".data 3) none false false true).index = false :=
  C10_geometry_never_indexed "d".data "t".data geomSchemaEx 1 geomTdEx
    "pt_position".data (Column.mk (.Geometry "POINTZ".data 3) none false false true)
    "POINTZ".data 3 rfl (by decide) rfl

end EMAnnotationSchemas
